import Mathlib

/-!
Verification of the ringba_ts cross-source call reconciliation engine.

Shallow embedding of:
- toE164 (src/services/ringba-original-sync.service.ts lines 23-31) and the
  database-layer toE164 (neon-operations, lines 18-40)
- getTargetName / getCategoryFromTargetId (src/http/ringba-target-calls.ts)
- matchCall / matchAndPrepareUpdates (ringba-original-sync.service.ts)
- updateOriginalPayout (neon-operations, COALESCE semantics)
- isDateInDST / the EST offset of convertRingbaDateToEST (date-normalizer)
- the dedup-by-inboundCallId loop and summary counting of
  syncRingbaOriginalPayout (ringba-original-sync.service.ts)

Modelling conventions:
- JS numbers are modelled as rationals (all arithmetic used here is exact).
- JS strings are Lean Strings; regex digit-stripping is a character filter.
- A JS Date is modelled as its epoch value in whole seconds (Int).  parseDate
  interprets its input as naive local civil time; the embedding carries the
  parsed instant (callTime : Option Int) instead of re-parsing strings, so
  truncation (setSeconds(0,0)) is 60 * (t.fdiv 60) and the ISO calendar day
  is t.fdiv 86400.
- SQL NULL is Option.none; COALESCE takes the first non-none argument.
- The JS Set of consumed ids / seen ids is a Lean List with membership.
-/

set_option allowUnsafeReducibility true
attribute [semireducible] Rat.add Rat.sub Rat.mul Rat.div Rat.inv Rat.ofScientific

/-- JS `a || d` for a nullable string: null, undefined and "" are falsy. -/
def jsOrS (a : Option String) (d : String) : String :=
  match a with
  | none => d
  | some s => if s = "" then d else s

/-- JS `a || b` where both sides are nullable strings ("" is falsy). -/
def jsOrOpt (a b : Option String) : Option String :=
  match a with
  | none => b
  | some s => if s = "" then b else some s

/-- JS nullish coalescing `a ?? b` (only null/undefined fall through). -/
def jsNullish (a b : Option String) : Option String :=
  match a with
  | none => b
  | some s => some s

/-- JS truthiness test `!x` for a nullable string. -/
def jsFalsy (a : Option String) : Bool :=
  match a with
  | none => true
  | some s => s = ""

/-- SQL COALESCE of two nullable values: first non-NULL argument. -/
def sqlCoalesce {α : Type} (a b : Option α) : Option α :=
  match a with
  | some x => some x
  | none => b

/-- JS Math.abs on an exact number. -/
def mathAbs (q : ℚ) : ℚ :=
  if q < 0 then -q else q

/-- `raw.replace(/\D/g, '')`: keep only the decimal digits of a string. -/
def digitsOf (r : String) : List Char :=
  r.toList.filter fun c => c.isDigit

/-- toE164 of ringba-original-sync.service.ts (lines 23-31).
A raw value that already starts with '+' is returned verbatim. -/
def toE164 (raw : Option String) : Option String :=
  match raw with
  | none => none
  | some r =>
    if r = "" then none
    else
      let digits := digitsOf r
      if digits = [] then none
      else if r.toList.head? = some '+' then some r
      else if digits.length = 11 ∧ digits.head? = some '1' then
        some (String.mk ('+' :: digits))
      else if digits.length = 10 then
        some (String.mk ('+' :: '1' :: digits))
      else if digits.length > 0 then
        some (String.mk ('+' :: digits))
      else none

/-- toE164 of the database layer (neon-operations, lines 18-40).
A raw value starting with '+' is rebuilt as '+' followed by its digits. -/
def toE164Db (raw : Option String) : Option String :=
  match raw with
  | none => none
  | some r =>
    if r = "" then none
    else
      let digits := digitsOf r
      if digits = [] then none
      else if r.toList.head? = some '+' then some (String.mk ('+' :: digits))
      else if digits.length = 11 ∧ digits.head? = some '1' then
        some (String.mk ('+' :: digits))
      else if digits.length = 10 then
        some (String.mk ('+' :: '1' :: digits))
      else if digits.length > 0 then
        some (String.mk ('+' :: digits))
      else none

/-- Does the pattern occur starting at the head of the text? -/
def headMatches : List Char → List Char → Bool
  | [], _ => true
  | _ :: _, [] => false
  | a :: as, b :: bs => a = b && headMatches as bs

/-- `text.includes(pattern)` on character lists. -/
def hasSub (pat : List Char) : List Char → Bool
  | [] => pat.isEmpty
  | b :: bs => headMatches pat (b :: bs) || hasSub pat bs

/-- TARGET_IDS lookup with fallback to the id itself
(ringba-target-calls.ts, getTargetName). -/
def getTargetName (targetId : String) : String :=
  if targetId = "TA48aa3e3f5a0544af8549703f76a24faa" then
    "Elocal - Appliance repair - Static Line"
  else if targetId = "PI1175ac62aa1c4748b21216666b398135" then
    "Elocal - Appliance Repair"
  else targetId

/-- getCategoryFromTargetId (ringba-target-calls.ts lines 18-22):
STATIC when the lowercased target name contains "static", else API. -/
def getCategoryFromTargetId (targetId : String) : String :=
  let name := getTargetName targetId
  if name ≠ "" ∧ hasSub "static".toList (name.toList.map Char.toLower) then
    "STATIC"
  else "API"

/-- Ringba call shaped for the sync (RingbaCallForSync).  callTime is the
parseDate interpretation of callDt as an epoch instant in seconds. -/
structure RingbaCallForSync where
  inboundCallId : String
  callTime : Option Int
  callerId : Option String
  callerIdE164 : Option String
  payout : ℚ
  revenue : ℚ
  callDuration : ℚ
  targetId : String
  deriving Repr, DecidableEq

/-- eLocal row (DatabaseCallRecord / elocal_call_data).  callTime is the
parseDate interpretation of call_timestamp as an epoch instant in seconds. -/
structure DatabaseCallRecord where
  id : Nat
  caller_id : Option String
  callTime : Option Int
  elocal_payout : Option ℚ
  category : Option String
  ringba_original_payout : Option ℚ
  ringba_original_revenue : Option ℚ
  ringba_id : Option String
  deriving Repr, DecidableEq

/-- MatchResult of matchCall (ringba-original-sync.service.ts lines 138-145). -/
structure MatchResult where
  elocalCall : DatabaseCallRecord
  ringbaCall : RingbaCallForSync
  matchScore : ℚ
  timeDiff : ℚ
  payoutDiff : ℚ
  payoutMatch : Bool
  deriving Repr, DecidableEq

/-- matchCall (ringba-original-sync.service.ts lines 147-205).
daysDiff compares the ISO calendar days of the two parsed instants; the time
difference is taken after setSeconds(0,0), i.e. on minute-truncated instants;
the same-day window is windowMinutes (called with 120) and the adjacent-day
window is 24*60 minutes.  The score is the time difference, scaled by 0.1 on
a payout-confirmed match and penalised by ten times the payout difference
when both payouts are positive but disagree beyond the tolerance. -/
def matchCall (windowMinutes payoutTolerance : ℚ)
    (ringbaCall : RingbaCallForSync) (elocalCall : DatabaseCallRecord) :
    Option MatchResult :=
  match elocalCall.callTime, ringbaCall.callTime with
  | some elocalDate, some ringbaDate =>
    let daysDiff : Nat := ((elocalDate.fdiv 86400) - (ringbaDate.fdiv 86400)).natAbs
    if daysDiff > 1 then none
    else
      let timeDiff : ℚ := (((elocalDate.fdiv 60) - (ringbaDate.fdiv 60)).natAbs : ℚ)
      let effectiveWindow : ℚ := if daysDiff = 0 then windowMinutes else 24 * 60
      if timeDiff > effectiveWindow then none
      else
        let elocalPayout : ℚ := elocalCall.elocal_payout.getD 0
        let ringbaPayout : ℚ := ringbaCall.payout
        let payoutDiff : ℚ := mathAbs (elocalPayout - ringbaPayout)
        let matchScore : ℚ :=
          if 0 < elocalPayout ∧ 0 < ringbaPayout then
            if payoutDiff ≤ payoutTolerance then timeDiff * (1 / 10)
            else timeDiff + payoutDiff * 10
          else timeDiff
        some { elocalCall := elocalCall, ringbaCall := ringbaCall,
               matchScore := matchScore, timeDiff := timeDiff,
               payoutDiff := payoutDiff,
               payoutMatch := decide (payoutDiff ≤ payoutTolerance) }
  | _, _ => none

/-- One prepared update row (PrepareUpdatesResult.updates element). -/
structure UpdateRow where
  elocalCallId : Nat
  ringbaInboundCallId : String
  originalPayout : ℚ
  originalRevenue : ℚ
  deriving Repr, DecidableEq

/-- Mutable state of the matchAndPrepareUpdates loop: the prepared updates,
the unmatched/skipped counters and the consumed-id set matchedElocalIds. -/
structure PrepState where
  updates : List UpdateRow
  unmatched : Nat
  skipped : Nat
  matchedIds : List Nat
  deriving Repr, DecidableEq

/-- The candidate bucket of elocalCallsByCategoryAndCaller for a given
(category, normalized caller) key.  The nested Map is populated by one pass
in input order, skipping rows whose caller does not normalize, so a bucket
holds exactly the input-order sublist of rows with that key. -/
def bucketOf (elocalCalls : List DatabaseCallRecord) (cat phone : String) :
    List DatabaseCallRecord :=
  elocalCalls.filter fun e =>
    decide (jsOrS e.category "STATIC" = cat ∧ toE164 e.caller_id = some phone)

/-- One iteration of the best-match inner loop (service lines 288-298):
skip consumed candidates, keep the first strict improvement of the best
score (bestScore starts at Infinity, modelled by the none accumulator). -/
def findBestStep (matchedIds : List Nat) (ringbaCall : RingbaCallForSync)
    (best : Option MatchResult) (elocalCall : DatabaseCallRecord) :
    Option MatchResult :=
  if elocalCall.id ∈ matchedIds then best
  else
    match matchCall 120 (1 / 100) ringbaCall elocalCall with
    | none => best
    | some m =>
      match best with
      | none => some m
      | some b => if m.matchScore < b.matchScore then some m else some b

/-- The best-match inner loop (service lines 285-298). -/
def findBest (matchedIds : List Nat) (ringbaCall : RingbaCallForSync)
    (candidates : List DatabaseCallRecord) : Option MatchResult :=
  candidates.foldl (findBestStep matchedIds ringbaCall) none

/-- Body of the per-Ringba-call iteration of matchAndPrepareUpdates
(service lines 254-324). -/
def matchStep (elocalCalls : List DatabaseCallRecord)
    (st : PrepState) (ringbaCall : RingbaCallForSync) : PrepState :=
  let ringbaCategory := getCategoryFromTargetId ringbaCall.targetId
  if ringbaCategory = "" then { st with unmatched := st.unmatched + 1 }
  else
    match jsOrOpt ringbaCall.callerIdE164 (toE164 ringbaCall.callerId) with
    | none => { st with unmatched := st.unmatched + 1 }
    | some callerE164 =>
      let candidateElocalCalls := bucketOf elocalCalls ringbaCategory callerE164
      if candidateElocalCalls.isEmpty then
        { st with unmatched := st.unmatched + 1 }
      else
        match findBest st.matchedIds ringbaCall candidateElocalCalls with
        | none => { st with unmatched := st.unmatched + 1 }
        | some bestMatch =>
          let existingOriginalPayout : ℚ :=
            bestMatch.elocalCall.ringba_original_payout.getD 0
          let existingOriginalRevenue : ℚ :=
            bestMatch.elocalCall.ringba_original_revenue.getD 0
          let hasExistingData : Bool :=
            decide (existingOriginalPayout ≠ 0 ∨ existingOriginalRevenue ≠ 0)
          { updates := st.updates ++
              [{ elocalCallId := bestMatch.elocalCall.id,
                 ringbaInboundCallId := ringbaCall.inboundCallId,
                 originalPayout := ringbaCall.payout,
                 originalRevenue := ringbaCall.revenue }],
            unmatched := st.unmatched,
            skipped := if hasExistingData then st.skipped + 1 else st.skipped,
            matchedIds := st.matchedIds ++ [bestMatch.elocalCall.id] }

/-- matchAndPrepareUpdates (service lines 218-327). -/
def matchAndPrepareUpdates (ringbaCalls : List RingbaCallForSync)
    (elocalCalls : List DatabaseCallRecord) : PrepState :=
  ringbaCalls.foldl (matchStep elocalCalls)
    { updates := [], unmatched := 0, skipped := 0, matchedIds := [] }

/-- The passing unconsumed candidates of one bucket together with their
match results, in bucket order (used to state the selection property). -/
def passingOf (matchedIds : List Nat) (ringbaCall : RingbaCallForSync)
    (candidates : List DatabaseCallRecord) : List MatchResult :=
  candidates.filterMap fun e =>
    if e.id ∈ matchedIds then none else matchCall 120 (1 / 100) ringbaCall e

/-- The accumulator step of findBest restricted to passing candidates. -/
def chooseBetter (best : Option MatchResult) (m : MatchResult) :
    Option MatchResult :=
  match best with
  | none => some m
  | some b => if m.matchScore < b.matchScore then some m else some b

/-- updateOriginalPayout row semantics (neon-operations lines 496-518):
SET ringba_original_payout = COALESCE(ringba_original_payout, new), likewise
for revenue and ringba_id. -/
def updateOriginalPayoutRow (row : DatabaseCallRecord)
    (originalPayout originalRevenue : ℚ) (ringbaInboundCallId : Option String) :
    DatabaseCallRecord :=
  { row with
    ringba_original_payout :=
      sqlCoalesce row.ringba_original_payout (some originalPayout),
    ringba_original_revenue :=
      sqlCoalesce row.ringba_original_revenue (some originalRevenue),
    ringba_id := sqlCoalesce row.ringba_id ringbaInboundCallId }

/-- updateOriginalPayout against a table state: the UPDATE mutates every row
matching the id and RETURNING id reports how many rows matched. -/
def updateOriginalPayout (db : List DatabaseCallRecord) (callId : Nat)
    (originalPayout originalRevenue : ℚ) (ringbaInboundCallId : Option String) :
    List DatabaseCallRecord × Nat :=
  ((db.map fun row =>
      if row.id = callId then
        updateOriginalPayoutRow row originalPayout originalRevenue
          ringbaInboundCallId
      else row),
   (db.filter fun row => decide (row.id = callId)).length)

/-- One iteration of step 5 of syncRingbaOriginalPayout (service lines
428-442): run the UPDATE and count updated (result.updated > 0) or failed. -/
def applyUpdateStep (acc : List DatabaseCallRecord × Nat × Nat)
    (u : UpdateRow) : List DatabaseCallRecord × Nat × Nat :=
  let res := updateOriginalPayout acc.1 u.elocalCallId u.originalPayout
    u.originalRevenue (some u.ringbaInboundCallId)
  if res.2 > 0 then (res.1, acc.2.1 + 1, acc.2.2)
  else (res.1, acc.2.1, acc.2.2 + 1)

/-- Step 5 of syncRingbaOriginalPayout (service lines 426-444): apply each
prepared update, counting updated versus failed.
Returns (new table, updatedCount, failedCount). -/
def applyUpdates (db : List DatabaseCallRecord) (updates : List UpdateRow) :
    List DatabaseCallRecord × Nat × Nat :=
  updates.foldl applyUpdateStep (db, 0, 0)

/-- The cross-day dedup of step 1 of syncRingbaOriginalPayout (service lines
391-397): keep a call when its inboundCallId is truthy and not yet seen. -/
def dedupByInboundId (seen : List String) :
    List RingbaCallForSync → List RingbaCallForSync
  | [] => []
  | c :: rest =>
    if c.inboundCallId ≠ "" ∧ c.inboundCallId ∉ seen then
      c :: dedupByInboundId (c.inboundCallId :: seen) rest
    else dedupByInboundId seen rest

/-- The error payload of an Except value, if any. -/
def exceptError {ε α : Type} (e : Except ε α) : Option ε :=
  match e with
  | .error x => some x
  | .ok _ => none

/-- Days since 1970-01-01 of a proleptic-Gregorian civil date (the day
arithmetic JS Date.UTC performs), via the standard days-from-civil formula. -/
def daysFromCivil (y : Int) (m d : Nat) : Int :=
  let yAdj : Int := if m ≤ 2 then y - 1 else y
  let era : Int := yAdj.fdiv 400
  let yoe : Nat := (yAdj - era * 400).toNat
  let mp : Nat := if m > 2 then m - 3 else m + 9
  let doy : Nat := (153 * mp + 2) / 5 + d - 1
  let doe : Nat := yoe * 365 + yoe / 4 - yoe / 100 + doy
  era * 146097 + (doe : Int) - 719468

/-- Civil date (year, month, day) of a day count since 1970-01-01 (the
inverse conversion JS getUTCFullYear/getUTCMonth/getUTCDate perform). -/
def civilFromDays (z : Int) : Int × Nat × Nat :=
  let zAdj : Int := z + 719468
  let era : Int := zAdj.fdiv 146097
  let doe : Nat := (zAdj - era * 146097).toNat
  let yoe : Nat := (doe - doe / 1460 + doe / 36524 - doe / 146096) / 365
  let doy : Nat := doe - (365 * yoe + yoe / 4 - yoe / 100)
  let mp : Nat := (5 * doy + 2) / 153
  let d : Nat := doy - (153 * mp + 2) / 5 + 1
  let m : Nat := if mp < 10 then mp + 3 else mp - 9
  let y : Int := (yoe : Int) + era * 400
  (if m ≤ 2 then y + 1 else y, m, d)

/-- JS getUTCDay of a day count: 0 = Sunday (1970-01-01 was a Thursday). -/
def weekdayOfDay (z : Int) : Int :=
  (z + 4) % 7

/-- Epoch seconds of a UTC civil instant (Date.UTC(y, m-1, d, h, mi, s)). -/
def utcSecs (y : Int) (m d h mi s : Nat) : Int :=
  86400 * daysFromCivil y m d + 3600 * (h : Int) + 60 * (mi : Int) + (s : Int)

/-- Day count of the instant at which US Eastern DST starts in a year
(second Sunday of March; the instant is 07:00 UTC = 02:00 EST that day). -/
def dstStartDay (year : Int) : Int :=
  let march1 := daysFromCivil year 3 1
  let march1Day := weekdayOfDay march1
  let daysToSecondSunday := (7 - march1Day) % 7 + 7
  march1 + daysToSecondSunday

/-- Day count of the instant at which US Eastern DST ends in a year
(first Sunday of November; the instant is 07:00 UTC that day). -/
def dstEndDay (year : Int) : Int :=
  let nov1 := daysFromCivil year 11 1
  let nov1Day := weekdayOfDay nov1
  let daysToFirstSunday := (7 - nov1Day) % 7
  nov1 + daysToFirstSunday

/-- isDateInDST (date-normalizer lines 78-89): the instant lies in
[second Sunday of March 07:00 UTC, first Sunday of November 07:00 UTC) of
its own UTC year. -/
def isDateInDST (t : Int) : Bool :=
  let year := (civilFromDays (t.fdiv 86400)).1
  let dstStart := 86400 * dstStartDay year + 7 * 3600
  let dstEnd := 86400 * dstEndDay year + 7 * 3600
  decide (dstStart ≤ t ∧ t < dstEnd)

/-- The UTC-to-Eastern offset applied by convertRingbaDateToEST
(date-normalizer line 116): 4 hours during DST, else 5. -/
def estOffsetHours (t : Int) : Int :=
  if isDateInDST t then 4 else 5

/-- The Eastern instant produced by convertRingbaDateToEST (line 117):
the UTC instant shifted back by the offset. -/
def estInstant (t : Int) : Int :=
  t - estOffsetHours t * 3600

/-- RingbaOriginalSyncConfig fields relevant to credential resolution. -/
structure SyncConfig where
  ringbaAccountId : Option String
  ringbaApiToken : Option String
  deriving Repr, DecidableEq

/-- process.env fallbacks RINGBA_ACCOUNT_ID / RINGBA_API_TOKEN. -/
structure ProcessEnv where
  accountIdEnv : Option String
  apiTokenEnv : Option String
  deriving Repr, DecidableEq

/-- RingbaOriginalSyncSummary (types/index.ts lines 164-177; the dateRange
and category labels are pure formatting and are omitted). -/
structure RingbaOriginalSyncSummary where
  ringbaCalls : Nat
  inserted : Nat
  updated : Nat
  skipped : Nat
  elocalCalls : Nat
  matched : Nat
  updatedOriginal : Nat
  failed : Nat
  unmatched : Nat
  skippedPreserved : Nat
  deriving Repr, DecidableEq

/-- Observable external actions of one sync run, in program order. -/
inductive SyncEffect where
  | fetchDay (index : Nat)
  | insertMirror (calls : List RingbaCallForSync)
  | updateRow (callId : Nat)
  deriving Repr, DecidableEq

/-- insertRingbaCallsBatch counters (neon-operations lines 523-581) against a
mirror table holding the given ringba_ids; the error path (skipped) is not
modelled, so every call is inserted or updated. -/
def insertRingbaCallsBatch (mirrorIds : List String)
    (ringbaCalls : List RingbaCallForSync) : Nat × Nat × Nat :=
  ringbaCalls.foldl
    (fun acc c =>
      if c.inboundCallId ∈ mirrorIds then (acc.1, acc.2.1 + 1, acc.2.2)
      else (acc.1 + 1, acc.2.1, acc.2.2))
    (0, 0, 0)

/-- syncRingbaOriginalPayout (service lines 329-469).  External data is passed
as oracles: dayFetches is what fetchAllRingbaCalls returns for each civil day
of the range, elocalCalls is the getCallsForDateRange result, mirrorIds the
ringba_ids already present in ringba_original_sync and db the
elocal_call_data table.  Returns the summary, the final table and the trace
of external effects; a missing-credential error is raised before any effect. -/
def syncRingbaOriginalPayout (config : SyncConfig) (env : ProcessEnv)
    (dayFetches : List (List RingbaCallForSync))
    (elocalCalls : List DatabaseCallRecord)
    (mirrorIds : List String)
    (db : List DatabaseCallRecord) :
    Except String
      (RingbaOriginalSyncSummary × List DatabaseCallRecord × List SyncEffect) :=
  let accountId := jsNullish config.ringbaAccountId env.accountIdEnv
  let apiToken := jsNullish config.ringbaApiToken env.apiTokenEnv
  if jsFalsy accountId || jsFalsy apiToken then
    .error "Ringba account ID and API token are required"
  else
    let fetchEffects := (List.range dayFetches.length).map SyncEffect.fetchDay
    let ringbaCalls := dedupByInboundId [] dayFetches.flatten
    let saveResult := insertRingbaCallsBatch mirrorIds ringbaCalls
    let prep :=
      if elocalCalls.length > 0 ∧ ringbaCalls.length > 0 then
        matchAndPrepareUpdates ringbaCalls elocalCalls
      else { updates := [], unmatched := 0, skipped := 0, matchedIds := [] }
    let applied := applyUpdates db prep.updates
    let updatedCount := applied.2.1
    let failedCount := applied.2.2
    .ok
      ({ ringbaCalls := ringbaCalls.length,
         inserted := saveResult.1,
         updated := saveResult.2.1,
         skipped := saveResult.2.2,
         elocalCalls := elocalCalls.length,
         matched := updatedCount,
         updatedOriginal := updatedCount,
         failed := failedCount,
         unmatched := prep.unmatched,
         skippedPreserved := prep.skipped },
       applied.1,
       fetchEffects ++ [SyncEffect.insertMirror ringbaCalls] ++
         (prep.updates.map fun u => SyncEffect.updateRow u.elocalCallId))

/-- An eLocal row whose enrichment columns hold the (non-NULL) value zero. -/
def rowZeroEnriched : DatabaseCallRecord :=
  { id := 1, caller_id := some "+15551234567", callTime := some 0,
    elocal_payout := some 12, category := some "STATIC",
    ringba_original_payout := some 0, ringba_original_revenue := some 0,
    ringba_id := none }

/-- An eLocal row with no enrichment, at civil time 23:55 of day 0. -/
def elocalLateNight : DatabaseCallRecord :=
  { id := 7, caller_id := some "+15551234567",
    callTime := some (23 * 3600 + 55 * 60), elocal_payout := some 12,
    category := some "STATIC", ringba_original_payout := none,
    ringba_original_revenue := none, ringba_id := none }

/-- A Ringba call at civil time 00:10 of day 1, same phone, STATIC target. -/
def ringbaEarlyMorning : RingbaCallForSync :=
  { inboundCallId := "RB1", callTime := some (86400 + 10 * 60),
    callerId := some "+15551234567", callerIdE164 := some "+15551234567",
    payout := 12, revenue := 14, callDuration := 60,
    targetId := "TA48aa3e3f5a0544af8549703f76a24faa" }

/-- An eLocal row at civil noon of day 0 with no enrichment. -/
def elocalNoon : DatabaseCallRecord :=
  { id := 8, caller_id := some "+15551234567", callTime := some (12 * 3600),
    elocal_payout := some 12, category := some "STATIC",
    ringba_original_payout := none, ringba_original_revenue := none,
    ringba_id := none }

/-- A Ringba call 200 minutes after noon on the same day, same phone. -/
def ringbaSameDay200 : RingbaCallForSync :=
  { inboundCallId := "RB2", callTime := some (12 * 3600 + 200 * 60),
    callerId := some "+15551234567", callerIdE164 := some "+15551234567",
    payout := 12, revenue := 14, callDuration := 60,
    targetId := "TA48aa3e3f5a0544af8549703f76a24faa" }

/-- An eLocal row carrying a negative payout (e.g. after an adjustment). -/
def elocalNegativePayout : DatabaseCallRecord :=
  { id := 9, caller_id := some "+15551234567", callTime := some 300,
    elocal_payout := some (-1), category := some "STATIC",
    ringba_original_payout := none, ringba_original_revenue := none,
    ringba_id := none }

/-- A Ringba call five minutes before elocalNegativePayout, payout 5. -/
def ringbaPayoutFive : RingbaCallForSync :=
  { inboundCallId := "RB3", callTime := some 0,
    callerId := some "+15551234567", callerIdE164 := some "+15551234567",
    payout := 5, revenue := 0, callDuration := 60,
    targetId := "TA48aa3e3f5a0544af8549703f76a24faa" }

/-- An eLocal row that already carries a non-zero enrichment payout. -/
def elocalAlreadyEnriched : DatabaseCallRecord :=
  { id := 2, caller_id := some "+15551234567", callTime := some 0,
    elocal_payout := some 12, category := some "STATIC",
    ringba_original_payout := some 3, ringba_original_revenue := some 4,
    ringba_id := some "OLD" }

/-- A Ringba call matching elocalAlreadyEnriched at the same instant. -/
def ringbaForEnriched : RingbaCallForSync :=
  { inboundCallId := "RB4", callTime := some 0,
    callerId := some "+15551234567", callerIdE164 := some "+15551234567",
    payout := 12, revenue := 14, callDuration := 60,
    targetId := "TA48aa3e3f5a0544af8549703f76a24faa" }

/-- A credential configuration with both values present. -/
def okConfig : SyncConfig :=
  { ringbaAccountId := some "ACC", ringbaApiToken := some "TOK" }

/-- An empty process environment (no credential fallbacks). -/
def emptyEnv : ProcessEnv :=
  { accountIdEnv := none, apiTokenEnv := none }

/-- A property preserved by every step of a left fold holds of its result. -/
theorem foldl_preserve {α β : Type} (P : α → Prop) (f : α → β → α)
    (hf : ∀ acc x, P acc → P (f acc x)) :
    ∀ (l : List β) (acc : α), P acc → P (l.foldl f acc)
  | [], _, h => h
  | x :: xs, acc, h => foldl_preserve P f hf xs (f acc x) (hf acc x h)

/-- C7: the phone normalizer maps "5551234567", "15551234567",
"+15551234567" and "(555) 123-4567" to one and the same canonical value
"+15551234567", and absent or empty input yields no identity. -/
theorem C7_phone_normalization_canonical :
    toE164 (some "5551234567") = some "+15551234567" ∧
    toE164 (some "15551234567") = some "+15551234567" ∧
    toE164 (some "+15551234567") = some "+15551234567" ∧
    toE164 (some "(555) 123-4567") = some "+15551234567" ∧
    toE164 none = none ∧ toE164 (some "") = none := by decide

/-- C10 counterexample: on "+1 (555) 123-4567" the service toE164 returns
the raw string verbatim while the database toE164 returns '+' followed by
the stripped digits, so the two implementations are not extensionally
equal. -/
theorem C10_counterexample_plus_formatted :
    toE164 (some "+1 (555) 123-4567") = some "+1 (555) 123-4567" ∧
    toE164Db (some "+1 (555) 123-4567") = some "+15551234567" ∧
    toE164 (some "+1 (555) 123-4567") ≠ toE164Db (some "+1 (555) 123-4567") := by
  decide

/-- C10 amended: the two normalizers agree on every input that does not
begin with '+', and on every input consisting of '+' followed by digits
only; they can differ only on inputs that begin with '+' and contain a
non-digit character. -/
theorem C10_amended_agreement (raw : Option String) :
    ((∀ r, raw = some r → r.toList.head? ≠ some '+') → toE164 raw = toE164Db raw) ∧
    (∀ r ds, raw = some r → r.toList = '+' :: ds → (∀ c ∈ ds, c.isDigit) →
      toE164 raw = toE164Db raw) := by
  constructor
  · intro h
    cases raw with
    | none => rfl
    | some r =>
      have hr := h r rfl
      simp only [toE164, toE164Db]
      split_ifs with h1 h2 h3 <;> rfl
  · intro r ds hraw hlist hdig
    subst hraw
    have hplus : r.toList.head? = some '+' := by rw [hlist]; rfl
    have hdigits : digitsOf r = ds := by
      unfold digitsOf
      rw [hlist]
      rw [List.filter_cons_of_neg (by decide)]
      exact List.filter_eq_self.mpr (by simpa using hdig)
    have hmk : r = String.mk ('+' :: ds) := by
      cases r with
      | mk l =>
        have : l = '+' :: ds := by simpa [String.toList] using hlist
        rw [this]
    have hne : r ≠ "" := by
      intro h0
      rw [h0] at hlist
      simp [String.toList] at hlist
    simp only [toE164, toE164Db, hdigits, hplus]
    cases ds with
    | nil => simp [hne]
    | cons d ds' => simp [hne, hmk]

/-- C1 counterexample: a zero (non-NULL) enrichment value blocks the write:
the COALESCE update keeps the stored zero, while the claim requires the
provided value to be written whenever the current value is absent or zero. -/
theorem C1_counterexample_zero_not_filled :
    rowZeroEnriched.ringba_original_payout = some 0 ∧
    (updateOriginalPayoutRow rowZeroEnriched 5 7 (some "RB9")).ringba_original_payout = some 0 ∧
    (updateOriginalPayoutRow rowZeroEnriched 5 7 (some "RB9")).ringba_original_payout ≠ some 5 := by
  decide

/-- C1 amended: mergeEnrichment (updateOriginalPayout) sets
enrichedPayout/enrichedRevenue/link id to the provided values only when the
stored value is absent (SQL NULL); any stored value — zero included — is
kept, so in particular a non-zero value is never overwritten and a second
run never changes the enrichment fields written by a first run. -/
theorem C1_amended_fill_only_if_null (row : DatabaseCallRecord)
    (p rev p2 rev2 : ℚ) (rid rid2 : Option String) :
    (row.ringba_original_payout = none →
      (updateOriginalPayoutRow row p rev rid).ringba_original_payout = some p) ∧
    (∀ v, row.ringba_original_payout = some v →
      (updateOriginalPayoutRow row p rev rid).ringba_original_payout = some v) ∧
    (row.ringba_original_revenue = none →
      (updateOriginalPayoutRow row p rev rid).ringba_original_revenue = some rev) ∧
    (∀ v, row.ringba_original_revenue = some v →
      (updateOriginalPayoutRow row p rev rid).ringba_original_revenue = some v) ∧
    (row.ringba_id = none → (updateOriginalPayoutRow row p rev rid).ringba_id = rid) ∧
    (∀ s, row.ringba_id = some s →
      (updateOriginalPayoutRow row p rev rid).ringba_id = some s) ∧
    (updateOriginalPayoutRow (updateOriginalPayoutRow row p rev rid) p2 rev2
        rid2).ringba_original_payout =
      (updateOriginalPayoutRow row p rev rid).ringba_original_payout ∧
    (updateOriginalPayoutRow (updateOriginalPayoutRow row p rev rid) p2 rev2
        rid2).ringba_original_revenue =
      (updateOriginalPayoutRow row p rev rid).ringba_original_revenue := by
  unfold updateOriginalPayoutRow sqlCoalesce
  cases row.ringba_original_payout <;> cases row.ringba_original_revenue <;>
    cases row.ringba_id <;> simp

/-- C1 witness: an empty row is filled, an enriched row keeps its value. -/
theorem C1_amended_fill_only_if_null_witness :
    (updateOriginalPayoutRow elocalNoon 5 7 (some "RBW")).ringba_original_payout = some 5 ∧
    (updateOriginalPayoutRow elocalAlreadyEnriched 5 7 (some "RBW")).ringba_original_payout = some 3 := by
  exact ⟨(C1_amended_fill_only_if_null elocalNoon 5 7 0 0 (some "RBW") none).1 rfl,
    (C1_amended_fill_only_if_null elocalAlreadyEnriched 5 7 0 0 (some "RBW") none).2.1 3 rfl⟩

/-- The DST start day computed by isDateInDST is a Sunday and lies 7 to 13
days after March 1, i.e. it is the second Sunday of March of its year. -/
theorem dstStartDay_second_sunday_march (year : Int) :
    weekdayOfDay (dstStartDay year) = 0 ∧
    daysFromCivil year 3 1 + 7 ≤ dstStartDay year ∧
    dstStartDay year ≤ daysFromCivil year 3 1 + 13 := by
  simp only [dstStartDay, weekdayOfDay]
  omega

/-- The DST end day computed by isDateInDST is a Sunday and lies 0 to 6
days after November 1, i.e. it is the first Sunday of November of its year. -/
theorem dstEndDay_first_sunday_november (year : Int) :
    weekdayOfDay (dstEndDay year) = 0 ∧
    daysFromCivil year 11 1 ≤ dstEndDay year ∧
    dstEndDay year ≤ daysFromCivil year 11 1 + 6 := by
  simp only [dstEndDay, weekdayOfDay]
  omega

/-- C5 counterexample: 2026-03-08 is itself the second Sunday of March 2026
and the DST transition happens at 07:00 UTC (02:00 EST), so the instant
2026-03-08T06:30:00Z is still outside DST and resolves to offset -5h, not
-4h as the claim asserts. -/
theorem C5_counterexample_dst_boundary :
    estOffsetHours (utcSecs 2026 3 8 6 30 0) ≠ 4 ∧
    estOffsetHours (utcSecs 2026 3 8 6 30 0) = 5 ∧
    isDateInDST (utcSecs 2026 3 8 6 30 0) = false ∧
    dstStartDay 2026 = daysFromCivil 2026 3 8 := by decide

/-- C5 amended: the conversion applies offset -4h exactly when the instant
lies in [second Sunday of March 07:00 UTC (= 02:00 EST), first Sunday of
November 07:00 UTC) of its own year, and -5h otherwise; the boundary days
are characterised as genuine second/first Sundays; 2026-03-01T06:30:00Z and
2026-03-08T06:30:00Z (which precedes the 02:00 EST transition of that very
Sunday) resolve to -5h, while 2026-03-08T07:30:00Z resolves to -4h. -/
theorem C5_amended_est_offset :
    (∀ t : Int,
      estOffsetHours t =
        if 86400 * dstStartDay (civilFromDays (t.fdiv 86400)).1 + 25200 ≤ t ∧
            t < 86400 * dstEndDay (civilFromDays (t.fdiv 86400)).1 + 25200 then 4
        else 5) ∧
    (∀ year : Int,
      weekdayOfDay (dstStartDay year) = 0 ∧
      daysFromCivil year 3 1 + 7 ≤ dstStartDay year ∧
      dstStartDay year ≤ daysFromCivil year 3 1 + 13 ∧
      weekdayOfDay (dstEndDay year) = 0 ∧
      daysFromCivil year 11 1 ≤ dstEndDay year ∧
      dstEndDay year ≤ daysFromCivil year 11 1 + 6) ∧
    estOffsetHours (utcSecs 2026 3 1 6 30 0) = 5 ∧
    estOffsetHours (utcSecs 2026 3 8 6 30 0) = 5 ∧
    estOffsetHours (utcSecs 2026 3 8 7 30 0) = 4 := by
  refine ⟨?_, ?_, by decide, by decide, by decide⟩
  · intro t
    simp only [estOffsetHours, isDateInDST]
    by_cases h :
        86400 * dstStartDay (civilFromDays (t.fdiv 86400)).1 + 25200 ≤ t ∧
          t < 86400 * dstEndDay (civilFromDays (t.fdiv 86400)).1 + 25200
    · rw [if_pos h, if_pos]
      simp only [decide_eq_true_eq]
      omega
    · rw [if_neg h, if_neg]
      simp only [decide_eq_true_eq]
      omega
  · intro year
    have h1 := dstStartDay_second_sunday_march year
    have h2 := dstEndDay_first_sunday_november year
    exact ⟨h1.1, h1.2.1, h1.2.2, h2.1, h2.2.1, h2.2.2⟩

/-- A successful matchCall returns the candidate row it was given. -/
theorem matchCall_elocal (w tol : ℚ) (r : RingbaCallForSync)
    (e : DatabaseCallRecord) (m : MatchResult)
    (h : matchCall w tol r e = some m) : m.elocalCall = e := by
  unfold matchCall at h
  split at h
  · dsimp only at h
    split_ifs at h <;>
      first
      | exact Option.noConfusion h
      | (obtain rfl := Option.some.inj h; rfl)
  · exact Option.noConfusion h

/-- The best-match loop step never produces a consumed candidate. -/
theorem findBestStep_consumed (ids : List Nat) (r : RingbaCallForSync)
    (acc : Option MatchResult) (e : DatabaseCallRecord)
    (h : ∀ m, acc = some m → m.elocalCall.id ∉ ids) :
    ∀ m, findBestStep ids r acc e = some m → m.elocalCall.id ∉ ids := by
  intro m hm
  unfold findBestStep at hm
  split_ifs at hm with hmem
  · exact h m hm
  · cases hc : matchCall 120 (1 / 100) r e with
    | none => rw [hc] at hm; exact h m hm
    | some mm =>
      simp only [hc] at hm
      have hme : mm.elocalCall = e := matchCall_elocal _ _ _ _ _ hc
      cases hacc : acc with
      | none =>
        simp only [hacc] at hm
        obtain rfl := Option.some.inj hm
        rw [hme]; exact hmem
      | some b =>
        simp only [hacc] at hm
        by_cases hlt : mm.matchScore < b.matchScore
        · rw [if_pos hlt] at hm
          obtain rfl := Option.some.inj hm
          rw [hme]; exact hmem
        · rw [if_neg hlt] at hm
          obtain rfl := Option.some.inj hm
          exact h _ hacc

/-- findBest never selects a candidate already in the consumed set. -/
theorem findBest_not_consumed (ids : List Nat) (r : RingbaCallForSync)
    (cands : List DatabaseCallRecord) (m : MatchResult)
    (h : findBest ids r cands = some m) : m.elocalCall.id ∉ ids := by
  have hinv := foldl_preserve
    (fun acc : Option MatchResult => ∀ m', acc = some m' → m'.elocalCall.id ∉ ids)
    (findBestStep ids r)
    (fun acc e hacc => findBestStep_consumed ids r acc e hacc)
    cands none (fun m' h' => Option.noConfusion h')
  exact hinv m h

/-- matchStep either only bumps the unmatched counter, or appends exactly one
update and one consumed id for the best match of the relevant bucket. -/
theorem matchStep_shape (es : List DatabaseCallRecord) (st : PrepState)
    (r : RingbaCallForSync) :
    matchStep es st r = { st with unmatched := st.unmatched + 1 } ∨
    ∃ m : MatchResult,
      findBest st.matchedIds r
        (bucketOf es (getCategoryFromTargetId r.targetId)
          ((jsOrOpt r.callerIdE164 (toE164 r.callerId)).getD "")) = some m ∧
      matchStep es st r =
        { updates := st.updates ++
            [{ elocalCallId := m.elocalCall.id,
               ringbaInboundCallId := r.inboundCallId,
               originalPayout := r.payout,
               originalRevenue := r.revenue }],
          unmatched := st.unmatched,
          skipped :=
            if decide (m.elocalCall.ringba_original_payout.getD 0 ≠ 0 ∨
                m.elocalCall.ringba_original_revenue.getD 0 ≠ 0) then
              st.skipped + 1
            else st.skipped,
          matchedIds := st.matchedIds ++ [m.elocalCall.id] } := by
  simp only [matchStep]
  by_cases h1 : getCategoryFromTargetId r.targetId = ""
  · rw [if_pos h1]; left; rfl
  · rw [if_neg h1]
    cases h2 : jsOrOpt r.callerIdE164 (toE164 r.callerId) with
    | none => left; rfl
    | some phone =>
      simp only [Option.getD_some]
      by_cases h3 : (bucketOf es (getCategoryFromTargetId r.targetId) phone).isEmpty
      · rw [if_pos h3]; left; rfl
      · rw [if_neg h3]
        cases h4 : findBest st.matchedIds r
            (bucketOf es (getCategoryFromTargetId r.targetId) phone) with
        | none => left; rfl
        | some m => right; exact ⟨m, rfl, rfl⟩

/-- C2: over any list of origin records and any candidate set, no eLocal
record id appears in more than one prepared update: a candidate selected
for one Ringba call is excluded from consideration for all later ones. -/
theorem C2_at_most_one_consumption (ringbaCalls : List RingbaCallForSync)
    (elocalCalls : List DatabaseCallRecord) :
    ((matchAndPrepareUpdates ringbaCalls elocalCalls).updates.map
      (fun u => u.elocalCallId)).Nodup := by
  have hinv := foldl_preserve
    (fun st : PrepState =>
      st.matchedIds = st.updates.map (fun u => u.elocalCallId) ∧ st.matchedIds.Nodup)
    (matchStep elocalCalls)
    (fun st r hst => by
      rcases matchStep_shape elocalCalls st r with heq | ⟨m, hfb, heq⟩
      · rw [heq]; exact hst
      · rw [heq]
        have hnotin : m.elocalCall.id ∉ st.matchedIds :=
          findBest_not_consumed _ _ _ _ hfb
        constructor
        · simp [hst.1]
        · simp only [List.nodup_append, List.nodup_cons, List.nodup_nil]
          exact ⟨hst.2, by simp, by simpa using fun hmem => hnotin hmem⟩)
    ringbaCalls
    { updates := [], unmatched := 0, skipped := 0, matchedIds := [] }
    ⟨rfl, List.nodup_nil⟩
  simp only [matchAndPrepareUpdates]
  rw [← hinv.1]
  exact hinv.2

/-- C3: with both timestamps parsed, matchCall rejects a pair exactly when
the calendar days differ by more than one, or the minute-truncated time
difference exceeds the effective window (120 minutes same-day, 1440
minutes adjacent-day); a same-day pair 200 minutes apart does not match,
and a 23:55 / next-day 00:10 pair with identical phone and category does. -/
theorem C3_day_and_time_windows (r : RingbaCallForSync) (e : DatabaseCallRecord)
    (et rt : Int) (he : e.callTime = some et) (hr : r.callTime = some rt) :
    (1 < ((et.fdiv 86400) - (rt.fdiv 86400)).natAbs →
      matchCall 120 (1 / 100) r e = none) ∧
    (((et.fdiv 86400) - (rt.fdiv 86400)).natAbs ≤ 1 →
      ((matchCall 120 (1 / 100) r e).isSome = true ↔
        ((((et.fdiv 60) - (rt.fdiv 60)).natAbs : ℚ) ≤
          if ((et.fdiv 86400) - (rt.fdiv 86400)).natAbs = 0 then 120 else 1440))) ∧
    matchCall 120 (1 / 100) ringbaSameDay200 elocalNoon = none ∧
    (matchAndPrepareUpdates [ringbaEarlyMorning] [elocalLateNight]).updates.map
      (fun u => u.elocalCallId) = [elocalLateNight.id] := by
  refine ⟨?_, ?_, by decide, by decide⟩
  · intro h
    unfold matchCall
    rw [he, hr]
    dsimp only
    rw [if_pos h]
  · intro h
    unfold matchCall
    rw [he, hr]
    dsimp only
    rw [if_neg (by omega)]
    have h2460 : (24 * 60 : ℚ) = 1440 := by norm_num
    rw [h2460]
    by_cases ht : ((((et.fdiv 60) - (rt.fdiv 60)).natAbs : ℚ)) >
        (if ((et.fdiv 86400) - (rt.fdiv 86400)).natAbs = 0 then (120 : ℚ) else 1440)
    · rw [if_pos ht]
      simp only [Option.isSome_none, Bool.false_eq_true, false_iff]
      exact not_le.mpr ht
    · rw [if_neg ht]
      simp only [Option.isSome_some, true_iff]
      exact not_lt.mp ht

/-- C3 witness: the 23:55 / next-day 00:10 Eastern pair passes the windows
(daysDiff = 1, truncated time difference 15 minutes, within 1440). -/
theorem C3_day_and_time_windows_witness :
    (matchCall 120 (1 / 100) ringbaEarlyMorning elocalLateNight).isSome = true := by
  have h := (C3_day_and_time_windows ringbaEarlyMorning elocalLateNight 86100 87000
    (by decide) (by decide)).2.1 (by decide)
  exact h.mpr (by decide)

/-- The best-match loop over a bucket equals the chooseBetter fold over the
passing unconsumed candidates of that bucket. -/
theorem findBest_eq_passing (ids : List Nat) (r : RingbaCallForSync) :
    ∀ (cands : List DatabaseCallRecord) (acc : Option MatchResult),
      cands.foldl (findBestStep ids r) acc =
        (passingOf ids r cands).foldl chooseBetter acc := by
  intro cands
  induction cands with
  | nil => intro acc; rfl
  | cons e cs ih =>
    intro acc
    simp only [List.foldl_cons, passingOf, List.filterMap_cons]
    by_cases hmem : e.id ∈ ids
    · simp only [if_pos hmem, findBestStep]
      simpa [passingOf] using ih acc
    · rw [if_neg hmem]
      cases hc : matchCall 120 (1 / 100) r e with
      | none =>
        simp only [findBestStep, if_neg hmem, hc]
        simpa [passingOf] using ih acc
      | some mm =>
        simp only [findBestStep, if_neg hmem, hc, List.foldl_cons]
        have hstep :
            (match acc with
              | none => some mm
              | some b =>
                if mm.matchScore < b.matchScore then some mm else some b) =
            chooseBetter acc mm := by
          cases acc <;> rfl
        rw [hstep]
        simpa [passingOf] using ih (chooseBetter acc mm)

/-- A chooseBetter fold started at some b yields either b itself (when b is
minimal) or the earliest strict improvement of the running minimum. -/
theorem foldl_chooseBetter_some :
    ∀ (l : List MatchResult) (b c : MatchResult),
      l.foldl chooseBetter (some b) = some c →
      (c = b ∧ ∀ x ∈ l, b.matchScore ≤ x.matchScore) ∨
      (∃ l1 l2, l = l1 ++ c :: l2 ∧ c.matchScore < b.matchScore ∧
        (∀ x ∈ l1, c.matchScore < x.matchScore) ∧
        (∀ x ∈ l2, c.matchScore ≤ x.matchScore)) := by
  intro l
  induction l with
  | nil =>
    intro b c h
    left
    exact ⟨(Option.some.inj h).symm, by simp⟩
  | cons x xs ih =>
    intro b c h
    rw [List.foldl_cons] at h
    by_cases hlt : x.matchScore < b.matchScore
    · have hcb : chooseBetter (some b) x = some x := by
        simp [chooseBetter, hlt]
      rw [hcb] at h
      rcases ih x c h with ⟨rfl, hall⟩ | ⟨l1, l2, heq, hcx, hbef, haft⟩
      · right
        exact ⟨[], xs, by simp, hlt, by simp, hall⟩
      · right
        refine ⟨x :: l1, l2, by simp [heq], lt_trans hcx hlt, ?_, haft⟩
        intro y hy
        rcases List.mem_cons.mp hy with rfl | hy'
        · exact hcx
        · exact hbef y hy'
    · have hcb : chooseBetter (some b) x = some b := by
        simp [chooseBetter, hlt]
      rw [hcb] at h
      rcases ih b c h with ⟨rfl, hall⟩ | ⟨l1, l2, heq, hcx, hbef, haft⟩
      · left
        refine ⟨rfl, ?_⟩
        intro y hy
        rcases List.mem_cons.mp hy with rfl | hy'
        · exact not_lt.mp hlt
        · exact hall y hy'
      · right
        refine ⟨x :: l1, l2, by simp [heq], hcx, ?_, haft⟩
        intro y hy
        rcases List.mem_cons.mp hy with rfl | hy'
        · exact lt_of_lt_of_le hcx (not_lt.mp hlt)
        · exact hbef y hy'

/-- A chooseBetter fold from the empty accumulator returns the earliest
minimum of the list: everything before it is strictly worse and everything
after it is no better. -/
theorem foldl_chooseBetter_none (l : List MatchResult) (c : MatchResult)
    (h : l.foldl chooseBetter none = some c) :
    ∃ l1 l2, l = l1 ++ c :: l2 ∧ (∀ x ∈ l1, c.matchScore < x.matchScore) ∧
      (∀ x ∈ l2, c.matchScore ≤ x.matchScore) := by
  cases l with
  | nil => exact Option.noConfusion h
  | cons x xs =>
    rw [List.foldl_cons] at h
    have hcb : chooseBetter none x = some x := rfl
    rw [hcb] at h
    rcases foldl_chooseBetter_some xs x c h with ⟨rfl, hall⟩ |
      ⟨l1, l2, heq, hcx, hbef, haft⟩
    · exact ⟨[], xs, by simp, by simp, hall⟩
    · refine ⟨x :: l1, l2, by simp [heq], ?_, haft⟩
      intro y hy
      rcases List.mem_cons.mp hy with rfl | hy'
      · exact hcx
      · exact hbef y hy'

/-- C4 counterexample: for a passing pair with payouts -1 and 5 (both
non-zero) and payout difference 6 above the tolerance, the score is the bare
time difference 5, not the claimed penalised 5 + 6*10: the code tests
payout > 0, not payout ≠ 0. -/
theorem C4_counterexample_negative_payout :
    elocalNegativePayout.elocal_payout = some (-1) ∧ (-1 : ℚ) ≠ 0 ∧
    ringbaPayoutFive.payout = 5 ∧ (5 : ℚ) ≠ 0 ∧
    (matchCall 120 (1 / 100) ringbaPayoutFive elocalNegativePayout).map
      (fun m => m.payoutDiff) = some 6 ∧
    (6 : ℚ) > 1 / 100 ∧
    (matchCall 120 (1 / 100) ringbaPayoutFive elocalNegativePayout).map
      (fun m => m.matchScore) = some 5 ∧
    (matchCall 120 (1 / 100) ringbaPayoutFive elocalNegativePayout).map
      (fun m => m.timeDiff) = some 5 ∧
    (5 : ℚ) ≠ 5 + 6 * 10 := by decide

/-- C4 amended: for a passing pair the score is the bare time difference
unless BOTH payouts are strictly positive; with both positive it is scaled by
0.1 when the payout difference is within the 0.01 tolerance and penalised by
ten times the payout difference otherwise; and findBest selects, among the
passing unconsumed candidates in bucket order, the earliest candidate of
lowest score. -/
theorem C4_amended_scoring_and_selection :
    (∀ (w tol : ℚ) (r : RingbaCallForSync) (e : DatabaseCallRecord)
      (m : MatchResult), matchCall w tol r e = some m →
      (¬(0 < e.elocal_payout.getD 0 ∧ 0 < r.payout) → m.matchScore = m.timeDiff) ∧
      (0 < e.elocal_payout.getD 0 → 0 < r.payout → m.payoutDiff ≤ tol →
        m.matchScore = m.timeDiff * (1 / 10)) ∧
      (0 < e.elocal_payout.getD 0 → 0 < r.payout → tol < m.payoutDiff →
        m.matchScore = m.timeDiff + m.payoutDiff * 10)) ∧
    (∀ (ids : List Nat) (r : RingbaCallForSync)
      (cands : List DatabaseCallRecord) (m : MatchResult),
      findBest ids r cands = some m →
      ∃ l1 l2, passingOf ids r cands = l1 ++ m :: l2 ∧
        (∀ x ∈ l1, m.matchScore < x.matchScore) ∧
        (∀ x ∈ l2, m.matchScore ≤ x.matchScore)) := by
  constructor
  · intro w tol r e m h
    cases hce : e.callTime with
    | none =>
      unfold matchCall at h
      rw [hce] at h
      exact Option.noConfusion h
    | some et =>
      cases hcr : r.callTime with
      | none =>
        unfold matchCall at h
        rw [hce, hcr] at h
        exact Option.noConfusion h
      | some rt =>
        unfold matchCall at h
        rw [hce, hcr] at h
        dsimp only at h
        by_cases h1 : ((et.fdiv 86400) - (rt.fdiv 86400)).natAbs > 1
        · rw [if_pos h1] at h; exact Option.noConfusion h
        · rw [if_neg h1] at h
          by_cases h2 : ((((et.fdiv 60) - (rt.fdiv 60)).natAbs : ℚ)) >
              (if ((et.fdiv 86400) - (rt.fdiv 86400)).natAbs = 0 then w else 24 * 60)
          · rw [if_pos h2] at h; exact Option.noConfusion h
          · rw [if_neg h2] at h
            obtain rfl := Option.some.inj h
            refine ⟨fun hn => ?_, fun hpe hpr hle => ?_, fun hpe hpr hlt => ?_⟩
            · dsimp only
              rw [if_neg hn]
            · dsimp only
              rw [if_pos ⟨hpe, hpr⟩, if_pos hle]
            · dsimp only
              rw [if_pos ⟨hpe, hpr⟩, if_neg (not_le.mpr hlt)]
  · intro ids r cands m h
    unfold findBest at h
    rw [findBest_eq_passing ids r cands none] at h
    exact foldl_chooseBetter_none _ _ h

/-- C4 witness: on the payout-confirmed pair (12, 12) at the same instant
the selected score is the scaled time difference, here 0. -/
theorem C4_amended_witness :
    (matchCall 120 (1 / 100) ringbaForEnriched elocalAlreadyEnriched).map
      (fun m => m.matchScore) = some 0 := by
  cases hm : matchCall 120 (1 / 100) ringbaForEnriched elocalAlreadyEnriched with
  | none => exact absurd hm (by decide)
  | some m =>
    have hsc := (C4_amended_scoring_and_selection.1 120 (1 / 100) ringbaForEnriched
      elocalAlreadyEnriched m hm).2.1
    have hmv : matchCall 120 (1 / 100) ringbaForEnriched elocalAlreadyEnriched =
        some { elocalCall := elocalAlreadyEnriched, ringbaCall := ringbaForEnriched,
               matchScore := 0, timeDiff := 0, payoutDiff := 0, payoutMatch := true } := by
      decide
    rw [hmv] at hm
    obtain rfl := Option.some.inj hm
    have h := hsc (by decide) (by decide) (by decide)
    rw [Option.map_some', h]
    decide

/-- The COALESCE update changes no row id: the table keeps the same ids. -/
theorem updateOriginalPayout_ids (db : List DatabaseCallRecord) (cid : Nat)
    (p rev : ℚ) (rid : Option String) :
    ((updateOriginalPayout db cid p rev rid).1).map (fun row => row.id) =
      db.map (fun row => row.id) := by
  unfold updateOriginalPayout
  dsimp only
  rw [List.map_map]
  apply List.map_congr_left
  intro a _
  by_cases h : a.id = cid <;> simp [h, updateOriginalPayoutRow]

/-- A row id occurs in the table iff the UPDATE's RETURNING count is
positive. -/
theorem updateOriginalPayout_hit (db : List DatabaseCallRecord) (cid : Nat)
    (p rev : ℚ) (rid : Option String) :
    (0 < (updateOriginalPayout db cid p rev rid).2 ↔
      cid ∈ db.map (fun row => row.id)) := by
  unfold updateOriginalPayout
  dsimp only
  rw [List.length_pos]
  constructor
  · intro h
    rcases List.exists_mem_of_ne_nil _ h with ⟨a, ha⟩
    have := List.of_mem_filter ha
    exact List.mem_map.mpr ⟨a, List.mem_of_mem_filter ha, by simpa using this⟩
  · intro h
    rcases List.mem_map.mp h with ⟨a, ha, haeq⟩
    intro hnil
    have : a ∈ List.filter (fun row => decide (row.id = cid)) db :=
      List.mem_filter.mpr ⟨ha, by simpa using haeq⟩
    rw [hnil] at this
    exact List.not_mem_nil a this

/-- updatedCount counts exactly the prepared updates whose row id exists in
the table, failedCount the rest, regardless of row contents. -/
theorem applyUpdates_counts :
    ∀ (us : List UpdateRow) (db : List DatabaseCallRecord) (a b : Nat),
      (us.foldl applyUpdateStep (db, a, b)).2.1 =
        a + (us.filter fun u =>
          decide (u.elocalCallId ∈ db.map (fun row => row.id))).length ∧
      (us.foldl applyUpdateStep (db, a, b)).2.2 =
        b + (us.filter fun u =>
          !(decide (u.elocalCallId ∈ db.map (fun row => row.id)))).length := by
  intro us
  induction us with
  | nil => intro db a b; simp
  | cons u rest ih =>
    intro db a b
    rw [List.foldl_cons]
    have hids := updateOriginalPayout_ids db u.elocalCallId u.originalPayout
      u.originalRevenue (some u.ringbaInboundCallId)
    by_cases hmem : u.elocalCallId ∈ db.map (fun row => row.id)
    · have hhit : 0 < (updateOriginalPayout db u.elocalCallId u.originalPayout
          u.originalRevenue (some u.ringbaInboundCallId)).2 :=
        (updateOriginalPayout_hit db u.elocalCallId u.originalPayout
          u.originalRevenue (some u.ringbaInboundCallId)).mpr hmem
      have hstep : applyUpdateStep (db, a, b) u =
          ((updateOriginalPayout db u.elocalCallId u.originalPayout
            u.originalRevenue (some u.ringbaInboundCallId)).1, a + 1, b) := by
        unfold applyUpdateStep
        dsimp only
        rw [if_pos hhit]
      rw [hstep]
      have hrec := ih ((updateOriginalPayout db u.elocalCallId u.originalPayout
        u.originalRevenue (some u.ringbaInboundCallId)).1) (a + 1) b
      rw [hids] at hrec
      constructor
      · rw [hrec.1, List.filter_cons_of_pos (by simpa using hmem)]
        simp [Nat.add_assoc, Nat.add_comm 1]
      · rw [hrec.2, List.filter_cons_of_neg (by simpa using hmem)]
    · have hhit : ¬ 0 < (updateOriginalPayout db u.elocalCallId u.originalPayout
          u.originalRevenue (some u.ringbaInboundCallId)).2 := fun hp =>
        hmem ((updateOriginalPayout_hit db u.elocalCallId u.originalPayout
          u.originalRevenue (some u.ringbaInboundCallId)).mp hp)
      have hstep : applyUpdateStep (db, a, b) u =
          ((updateOriginalPayout db u.elocalCallId u.originalPayout
            u.originalRevenue (some u.ringbaInboundCallId)).1, a, b + 1) := by
        unfold applyUpdateStep
        dsimp only
        rw [if_neg hhit]
      rw [hstep]
      have hrec := ih ((updateOriginalPayout db u.elocalCallId u.originalPayout
        u.originalRevenue (some u.ringbaInboundCallId)).1) a (b + 1)
      rw [hids] at hrec
      constructor
      · rw [hrec.1, List.filter_cons_of_neg (by simpa using hmem)]
      · rw [hrec.2, List.filter_cons_of_pos (by simpa using hmem)]
        simp [Nat.add_assoc, Nat.add_comm 1]

/-- C6 counterexample: with a single matched pair whose target row already
carries non-zero enrichment, the run summary reports the pair BOTH as
skipped-already-enriched AND in the matched/updated count (matched = 1, not
0): the prepared update is still executed and counted as updated, contrary
to the claim's "rather than". -/
theorem C6_counterexample_double_count :
    (syncRingbaOriginalPayout okConfig emptyEnv [[ringbaForEnriched]]
        [elocalAlreadyEnriched] [] [elocalAlreadyEnriched]).toOption.map
      (fun x => (x.1.matched, x.1.skippedPreserved, x.1.failed, x.1.unmatched)) =
      some (1, 1, 0, 0) ∧
    elocalAlreadyEnriched.ringba_original_payout = some 3 ∧ (3 : ℚ) ≠ 0 ∧
    (1 : Nat) ≠ 0 := by decide

/-- C6 amended: a matched pair whose target row already carries a non-zero
enrichment is counted as skipped-already-enriched, but its update is still
pushed and — the row being present — executed successfully and counted in
the matched/updated tally as well: every bump of the skipped counter comes
with a pushed update, and updatedCount counts exactly the updates whose row
id exists in the table (failures being the rest). -/
theorem C6_amended_skip_and_update_both_counted :
    (∀ (es : List DatabaseCallRecord) (st : PrepState) (r : RingbaCallForSync),
      ((matchStep es st r).skipped = st.skipped ∨
        (matchStep es st r).skipped = st.skipped + 1) ∧
      ((matchStep es st r).skipped = st.skipped + 1 →
        (matchStep es st r).updates.length = st.updates.length + 1)) ∧
    (∀ (db : List DatabaseCallRecord) (us : List UpdateRow),
      (applyUpdates db us).2.1 = (us.filter fun u =>
        decide (u.elocalCallId ∈ db.map (fun row => row.id))).length ∧
      (applyUpdates db us).2.2 = (us.filter fun u =>
        !(decide (u.elocalCallId ∈ db.map (fun row => row.id)))).length) := by
  constructor
  · intro es st r
    rcases matchStep_shape es st r with heq | ⟨m, _, heq⟩
    · rw [heq]
      exact ⟨Or.inl rfl, fun hc => absurd hc (by simp)⟩
    · rw [heq]
      by_cases hex : decide (m.elocalCall.ringba_original_payout.getD 0 ≠ 0 ∨
          m.elocalCall.ringba_original_revenue.getD 0 ≠ 0) = true
      · constructor
        · right; simp only [hex, if_true]
        · intro _; simp
      · constructor
        · left; simp only [Bool.not_eq_true] at hex; simp [hex]
        · intro hc
          simp only [Bool.not_eq_true] at hex
          simp [hex] at hc
  · intro db us
    have h := applyUpdates_counts us db 0 0
    unfold applyUpdates
    constructor
    · rw [h.1]; simp
    · rw [h.2]; simp

/-- C6 witness: the concrete enriched pair bumps skipped by one and pushes
exactly one update. -/
theorem C6_amended_witness :
    (matchStep [elocalAlreadyEnriched]
      { updates := [], unmatched := 0, skipped := 0, matchedIds := [] }
      ringbaForEnriched).updates.length = 0 + 1 ∧
    (applyUpdates [elocalAlreadyEnriched]
      [{ elocalCallId := 2, ringbaInboundCallId := "RB4",
         originalPayout := 12, originalRevenue := 14 }]).2.1 = 1 := by
  constructor
  · exact (C6_amended_skip_and_update_both_counted.1 [elocalAlreadyEnriched]
      { updates := [], unmatched := 0, skipped := 0, matchedIds := [] }
      ringbaForEnriched).2 (by decide)
  · rw [(C6_amended_skip_and_update_both_counted.2 [elocalAlreadyEnriched]
      [{ elocalCallId := 2, ringbaInboundCallId := "RB4",
         originalPayout := 12, originalRevenue := 14 }]).1]
    decide

/-- Unfolding equation of the dedup loop on a non-empty fetch list. -/
theorem dedupByInboundId_cons (seen : List String) (c : RingbaCallForSync)
    (rest : List RingbaCallForSync) :
    dedupByInboundId seen (c :: rest) =
      if c.inboundCallId ≠ "" ∧ c.inboundCallId ∉ seen then
        c :: dedupByInboundId (c.inboundCallId :: seen) rest
      else dedupByInboundId seen rest := rfl

/-- Every record kept by the dedup loop has a truthy, not-yet-seen
inboundCallId and is the first occurrence of that id; the kept ids are
pairwise distinct; the kept records are a fetch-order sublist. -/
theorem dedupByInboundId_spec :
    ∀ (l : List RingbaCallForSync) (seen : List String),
      (∀ c ∈ dedupByInboundId seen l, c.inboundCallId ≠ "" ∧
        c.inboundCallId ∉ seen ∧
        l.find? (fun x => decide (x.inboundCallId = c.inboundCallId)) = some c) ∧
      ((dedupByInboundId seen l).map (fun c => c.inboundCallId)).Nodup ∧
      List.Sublist (dedupByInboundId seen l) l := by
  intro l
  induction l with
  | nil =>
    intro seen
    refine ⟨by simp [dedupByInboundId], by simp [dedupByInboundId],
      by simp [dedupByInboundId]⟩
  | cons c rest ih =>
    intro seen
    by_cases hc : c.inboundCallId ≠ "" ∧ c.inboundCallId ∉ seen
    · have hd : dedupByInboundId seen (c :: rest) =
          c :: dedupByInboundId (c.inboundCallId :: seen) rest := by
        rw [dedupByInboundId_cons, if_pos hc]
      obtain ⟨ih1, ih2, ih3⟩ := ih (c.inboundCallId :: seen)
      refine ⟨?_, ?_, ?_⟩
      · intro x hx
        rw [hd] at hx
        rcases List.mem_cons.mp hx with rfl | hx'
        · refine ⟨hc.1, hc.2, ?_⟩
          rw [List.find?_cons_of_pos _ (by simp)]
        · obtain ⟨hne, hnotin, hfind⟩ := ih1 x hx'
          have hxid : ¬(x.inboundCallId = c.inboundCallId) := fun heq =>
            hnotin (by rw [heq]; exact List.mem_cons_self _ _)
          refine ⟨hne, fun hmem => hnotin (List.mem_cons_of_mem _ hmem), ?_⟩
          rw [List.find?_cons_of_neg _ (by simpa using fun heq => hxid heq.symm)]
          exact hfind
      · rw [hd]
        simp only [List.map_cons, List.nodup_cons]
        refine ⟨?_, ih2⟩
        intro hmem
        rcases List.mem_map.mp hmem with ⟨x, hx, hxeq⟩
        obtain ⟨_, hnotin, _⟩ := ih1 x hx
        exact hnotin (by rw [hxeq]; exact List.mem_cons_self _ _)
      · rw [hd]
        exact List.Sublist.cons₂ c ih3
    · have hd : dedupByInboundId seen (c :: rest) = dedupByInboundId seen rest := by
        rw [dedupByInboundId_cons, if_neg hc]
      obtain ⟨ih1, ih2, ih3⟩ := ih seen
      refine ⟨?_, by rw [hd]; exact ih2, by rw [hd]; exact List.Sublist.cons c ih3⟩
      intro x hx
      rw [hd] at hx
      obtain ⟨hne, hnotin, hfind⟩ := ih1 x hx
      have hcx : ¬(c.inboundCallId = x.inboundCallId) := by
        intro heq
        rcases not_and_or.mp hc with hemp | hseen
        · rw [not_not] at hemp
          exact hne (by rw [← heq, hemp])
        · rw [not_not] at hseen
          exact hnotin (by rw [← heq]; exact hseen)
      refine ⟨hne, hnotin, ?_⟩
      rw [List.find?_cons_of_neg _ (by simpa using hcx)]
      exact hfind

/-- C8: the multi-day fetch is deduplicated by inboundCallId before any
further processing: the deduplicated collection has pairwise distinct ids,
is a fetch-order sublist keeping the first occurrence of each id, and is
exactly the collection handed to the mirror upsert (and counted in the
summary) on every successful run. -/
theorem C8_dedup_before_matching (dayFetches : List (List RingbaCallForSync)) :
    ((dedupByInboundId [] dayFetches.flatten).map
      (fun c => c.inboundCallId)).Nodup ∧
    List.Sublist (dedupByInboundId [] dayFetches.flatten) dayFetches.flatten ∧
    (∀ c ∈ dedupByInboundId [] dayFetches.flatten,
      dayFetches.flatten.find?
        (fun x => decide (x.inboundCallId = c.inboundCallId)) = some c) ∧
    (∀ (config : SyncConfig) (env : ProcessEnv)
      (elocalCalls : List DatabaseCallRecord) (mirrorIds : List String)
      (db : List DatabaseCallRecord)
      (out : RingbaOriginalSyncSummary × List DatabaseCallRecord × List SyncEffect),
      syncRingbaOriginalPayout config env dayFetches elocalCalls mirrorIds db =
        .ok out →
      SyncEffect.insertMirror (dedupByInboundId [] dayFetches.flatten) ∈ out.2.2 ∧
      out.1.ringbaCalls = (dedupByInboundId [] dayFetches.flatten).length) := by
  obtain ⟨h1, h2, h3⟩ := dedupByInboundId_spec dayFetches.flatten []
  refine ⟨h2, h3, fun c hc => (h1 c hc).2.2, ?_⟩
  intro config env elocalCalls mirrorIds db out hok
  unfold syncRingbaOriginalPayout at hok
  dsimp only at hok
  by_cases hcred : (jsFalsy (jsNullish config.ringbaAccountId env.accountIdEnv) ||
      jsFalsy (jsNullish config.ringbaApiToken env.apiTokenEnv)) = true
  · rw [if_pos hcred] at hok
    exact Except.noConfusion hok
  · rw [if_neg hcred] at hok
    obtain rfl := (Except.ok.inj hok).symm
    exact ⟨by simp, rfl⟩

/-- C8 witness: the same call fetched on two consecutive day windows is kept
once (its first occurrence) and that single copy reaches the mirror upsert. -/
theorem C8_dedup_before_matching_witness :
    ((dedupByInboundId []
      ([[ringbaForEnriched], [ringbaForEnriched]] :
        List (List RingbaCallForSync)).flatten).map
      (fun c => c.inboundCallId)).Nodup ∧
    List.find? (fun x => decide (x.inboundCallId = ringbaForEnriched.inboundCallId))
      ([[ringbaForEnriched], [ringbaForEnriched]] :
        List (List RingbaCallForSync)).flatten = some ringbaForEnriched ∧
    SyncEffect.insertMirror (dedupByInboundId []
      ([[ringbaForEnriched], [ringbaForEnriched]] :
        List (List RingbaCallForSync)).flatten) ∈
      [SyncEffect.fetchDay 0, SyncEffect.fetchDay 1,
       SyncEffect.insertMirror [ringbaForEnriched]] := by
  have h := C8_dedup_before_matching [[ringbaForEnriched], [ringbaForEnriched]]
  refine ⟨h.1, h.2.2.1 ringbaForEnriched (by decide), ?_⟩
  have h4 := h.2.2.2 okConfig emptyEnv [] [] []
    ({ ringbaCalls := 1, inserted := 1, updated := 0, skipped := 0,
       elocalCalls := 0, matched := 0, updatedOriginal := 0, failed := 0,
       unmatched := 0, skippedPreserved := 0 }, [],
     [SyncEffect.fetchDay 0, SyncEffect.fetchDay 1,
      SyncEffect.insertMirror [ringbaForEnriched]]) rfl
  exact h4.1

/-- C9: when the resolved Ringba account id or API token is absent (no
config value and no environment fallback), the sync raises the fatal
credentials error and performs no fetch and no write: it never returns a
successful summary or effect trace. -/
theorem C9_missing_credentials_abort (config : SyncConfig) (env : ProcessEnv)
    (dayFetches : List (List RingbaCallForSync))
    (elocalCalls : List DatabaseCallRecord) (mirrorIds : List String)
    (db : List DatabaseCallRecord)
    (h : jsNullish config.ringbaAccountId env.accountIdEnv = none ∨
      jsNullish config.ringbaApiToken env.apiTokenEnv = none) :
    syncRingbaOriginalPayout config env dayFetches elocalCalls mirrorIds db =
      .error "Ringba account ID and API token are required" ∧
    ∀ out, syncRingbaOriginalPayout config env dayFetches elocalCalls mirrorIds db ≠
      .ok out := by
  have hb : (jsFalsy (jsNullish config.ringbaAccountId env.accountIdEnv) ||
      jsFalsy (jsNullish config.ringbaApiToken env.apiTokenEnv)) = true := by
    rcases h with h | h <;> rw [h] <;> simp [jsFalsy]
  have herr : syncRingbaOriginalPayout config env dayFetches elocalCalls mirrorIds db =
      .error "Ringba account ID and API token are required" := by
    unfold syncRingbaOriginalPayout
    dsimp only
    rw [if_pos hb]
  exact ⟨herr, fun out hok => by
    rw [herr] at hok
    exact Except.noConfusion hok⟩

/-- C9 witness: a configuration with no account id and no environment
fallback aborts with the credentials error. -/
theorem C9_missing_credentials_abort_witness :
    syncRingbaOriginalPayout { ringbaAccountId := none, ringbaApiToken := some "TOK" }
      emptyEnv [] [] [] [] =
      .error "Ringba account ID and API token are required" :=
  (C9_missing_credentials_abort
    { ringbaAccountId := none, ringbaApiToken := some "TOK" }
    emptyEnv [] [] [] [] (Or.inl rfl)).1

/-- C10 witness: the two normalizers agree on a non-plus input and on a
plus-and-digits-only input. -/
theorem C10_amended_agreement_witness :
    toE164 (some "555-123-4567") = toE164Db (some "555-123-4567") ∧
    toE164 (some "+15551234567") = toE164Db (some "+15551234567") := by
  refine ⟨(C10_amended_agreement (some "555-123-4567")).1 ?_,
    (C10_amended_agreement (some "+15551234567")).2 "+15551234567"
      "15551234567".toList rfl (by decide) (by decide)⟩
  intro r hr
  cases hr
  decide
